import Mathlib

/-!
# Kafka input adapter: position codec, commit loop, queue and lifecycle

A shallow embedding of `input/kafka/kafka_commit_offset.go` and
`input/kafka/input.go`.

Go strings are modelled as `List Char`.  The separators `,` and `:`, the
digits and the sign characters are all ASCII, so splitting and integer parsing
on characters coincide with Go's byte-level versions.  Machine integers are
`Int`/`Nat` with explicit wrap-around.
-/

namespace Kafka

/-! ## Go standard library: `strings.Split`, `strconv.ParseInt` -/

/-- Go string. -/
abbrev GoString := List Char

/-- Loop of `strings.Split(s, sep)` for a one-character separator: `cur` is the
segment being read (reversed), a segment is closed at every separator and at
the end of the input. -/
def splitAux (sep : Char) : List Char → GoString → List GoString
  | cur, [] => [cur.reverse]
  | cur, c :: cs =>
    if c = sep then cur.reverse :: splitAux sep [] cs
    else splitAux sep (c :: cur) cs

/-- Go `strings.Split(s, sep)` with a one-character separator; the empty string
gives one empty segment. -/
def Split (s : GoString) (sep : Char) : List GoString :=
  splitAux sep [] s

/-- Errors of `strconv`: `ErrSyntax` and `ErrRange`. -/
inductive NumError where
  | ErrSyntaxNum
  | ErrRangeNum
  deriving DecidableEq, Repr

/-- Loop of Go `strconv.ParseUint(s, 10, bitSize)` over the remaining bytes with
the accumulator `n`.  `cutoff = maxUint64/10 + 1`, `maxVal = 2^bitSize - 1`. -/
def parseUintLoop (maxVal : Nat) : GoString → Nat → Except NumError Nat
  | [], n => .ok n
  | c :: cs, n =>
    if '0' ≤ c ∧ c ≤ '9' then
      let d := c.toNat - '0'.toNat
      if n ≥ (2 ^ 64 - 1) / 10 + 1 then .error .ErrRangeNum
      else
        let n1 := n * 10 + d
        if n1 ≥ 2 ^ 64 ∨ n1 > maxVal then .error .ErrRangeNum
        else parseUintLoop maxVal cs n1
    else .error .ErrSyntaxNum

/-- Go `strconv.ParseUint(s, 10, bitSize)` for `0 < bitSize ≤ 64`. -/
def ParseUint (s : GoString) (bitSize : Nat) : Except NumError Nat :=
  if s = [] then .error .ErrSyntaxNum
  else parseUintLoop (2 ^ bitSize - 1) s 0

/-- Go `strconv.ParseInt(s, 10, bitSize)` for `0 < bitSize ≤ 64`: an optional
sign, then `ParseUint`, then the signed range check. -/
def ParseInt (s : GoString) (bitSize : Nat) : Except NumError Int :=
  match s with
  | [] => .error .ErrSyntaxNum
  | c :: cs =>
    let neg := decide (c = '-')
    let body := if c = '+' ∨ c = '-' then cs else s
    match ParseUint body bitSize with
    | .error e => .error e
    | .ok un =>
      let cutoff := 2 ^ (bitSize - 1)
      if !neg ∧ un ≥ cutoff then .error .ErrRangeNum
      else if neg ∧ un > cutoff then .error .ErrRangeNum
      else .ok (if neg then -(un : Int) else (un : Int))

/-- Go conversion `int32(x)` of an `int64`. -/
def toInt32 (x : Int) : Int := (x + 2 ^ 31) % 2 ^ 32 - 2 ^ 31

/-- Go `int64` result of an addition: wrap-around to the range
`[-2^63, 2^63)`. -/
def wrapInt64 (x : Int) : Int := (x + 2 ^ 63) % 2 ^ 64 - 2 ^ 63

/-! ## Data model -/

/-- Modelled from the spec: the struct `inputDriver.PluginPosition`, declared in
the driver package; the two fields this package reads, the encoded position
string `GTID` and the `uint64` `EventID`. -/
structure PluginPosition where
  GTID : GoString
  EventID : Nat
  deriving DecidableEq, Repr

/-- The struct `waitCommitOffset`. -/
structure waitCommitOffset where
  topic : GoString
  partition : Int
  offset : Int
  deriving DecidableEq, Repr

/-! ## `TransferWaitCommitOffsetList` -/

/-- Body of the `for _, gtid := range strings.Split(p.GTID, ",")` loop, with the
slice `data` built so far. -/
def transferLoop : List GoString → List waitCommitOffset → List waitCommitOffset
  | [], data => data
  | gtid :: rest, data =>
    let gtidInfoArr := Split gtid ':'
    if gtidInfoArr.length ≠ 3 then transferLoop rest data
    else
      match ParseInt (gtidInfoArr.getD 1 []) 32 with
      | .error _ => transferLoop rest data
      | .ok partition =>
        match ParseInt (gtidInfoArr.getD 2 []) 64 with
        | .error _ => transferLoop rest data
        | .ok offset =>
          transferLoop rest
            (data ++ [{ topic := gtidInfoArr.getD 0 [],
                        partition := toInt32 partition,
                        offset := offset }])

/-- Source function `TransferWaitCommitOffsetList`; `none` is the nil pointer. -/
def TransferWaitCommitOffsetList (p : Option PluginPosition) : List waitCommitOffset :=
  match p with
  | none => []
  | some p =>
    if p.GTID = [] then []
    else transferLoop (Split p.GTID ',') []

/-- The decoding of one segment in the words of the specification: the segment
splits on `:` into exactly 3 fields, the 2nd parses as an int32 and the 3rd as
an int64. -/
def decodeSegment (seg : GoString) : Option waitCommitOffset :=
  match Split seg ':' with
  | [f1, f2, f3] =>
    match ParseInt f2 32, ParseInt f3 64 with
    | .ok partition, .ok offset => some { topic := f1, partition := partition, offset := offset }
    | _, _ => none
  | _ => none

/-! ## The commit loop `ConsumePluginPosition` -/

/-- Calls made on the `sarama.ConsumerGroupSession`. -/
inductive BrokerCall where
  | MarkOffset (topic : GoString) (partition : Int) (offset : Int) (metadata : GoString)
  | Commit
  deriving DecidableEq, Repr

/-- What one round of the `select` in `ConsumePluginPosition` observes: a value
received from `c.waitCommitOffset` (`none` is a nil pointer) or `ctx.Done()`. -/
inductive SelectEvent where
  | recv (p : Option PluginPosition)
  | ctxDone
  deriving DecidableEq, Repr

/-- State of `ConsumePluginPosition`: the local `lastEventId`, the calls issued on
the session so far, and whether the function has returned. -/
structure CommitLoop where
  lastEventId : Nat
  calls : List BrokerCall
  returned : Bool
  deriving DecidableEq, Repr

/-- The inner loop `for _, pluginPosition := range data`: one `MarkOffset` with
the int64 sum `offset+1` and one `Commit` per element, appended to the calls
issued so far. -/
def commitRange : List waitCommitOffset → List BrokerCall → List BrokerCall
  | [], calls => calls
  | pluginPosition :: rest, calls =>
    commitRange rest
      (calls ++ [BrokerCall.MarkOffset pluginPosition.topic pluginPosition.partition
                    (wrapInt64 (pluginPosition.offset + 1)) [],
                 BrokerCall.Commit])

/-- One round of the `for { select { ... } }` loop of `ConsumePluginPosition`. -/
def commitStep (st : CommitLoop) (ev : SelectEvent) : CommitLoop :=
  if st.returned then st
  else
    match ev with
    | .ctxDone => { st with returned := true }
    | .recv none => { st with returned := true }
    | .recv (some p) =>
      if p.EventID = st.lastEventId then st
      else
        { st with
          calls := commitRange (TransferWaitCommitOffsetList (some p)) st.calls
          lastEventId := p.EventID }

/-- Source function `ConsumePluginPosition` run against the sequence of events its
`select` observes; `lastEventId` starts at 0. -/
def ConsumePluginPosition (events : List SelectEvent) : CommitLoop :=
  events.foldl commitStep { lastEventId := 0, calls := [], returned := false }

/-- The events seen by a loop that receives the given non-nil positions. -/
def received (ps : List PluginPosition) : List SelectEvent :=
  ps.map (fun p => SelectEvent.recv (some p))

/-- The commit sequence in the words of the specification: for each triple, in
order, `MarkOffset(topic, partition, N+1, "")` then `Commit()`, with `N+1` the
integer successor. -/
def commitSequence (data : List waitCommitOffset) : List BrokerCall :=
  data.flatMap (fun t => [BrokerCall.MarkOffset t.topic t.partition (t.offset + 1) [],
                          BrokerCall.Commit])

/-- The commit sequence with the mark computed as the code computes it, in int64
arithmetic. -/
def commitSequenceInt64 (data : List waitCommitOffset) : List BrokerCall :=
  data.flatMap (fun t =>
    [BrokerCall.MarkOffset t.topic t.partition (wrapInt64 (t.offset + 1)) [],
     BrokerCall.Commit])

/-! ## The queue `waitCommitOffset` and `DoneMinPosition` -/

/-- Go `error`: `none` is nil, `some msg` an error with that message. -/
abbrev GoError := Option GoString

/-- Capacity of the channel made in `Init`: `make(chan *PluginPosition, 500)`. -/
def waitCommitOffsetCap : Nat := 500

/-- What ends the wait of the `select` in `DoneMinPosition` when the channel is
full: the 15-second timer, or a receiver taking the head of the queue. -/
inductive Wakeup where
  | timer
  | receiver
  deriving DecidableEq, Repr

/-- Source function `DoneMinPosition` on the contents of the buffered channel
(head first).  Returns the new contents and the error. -/
def DoneMinPosition (queue : List (Option PluginPosition)) (p : Option PluginPosition)
    (w : Wakeup) : List (Option PluginPosition) × GoError :=
  match p with
  | none => (queue, none)
  | some x =>
    if queue.length < waitCommitOffsetCap then (queue ++ [some x], none)
    else
      match w with
      | .timer => (queue, none)
      | .receiver => (queue.tail ++ [some x], none)

/-! ## Lifecycle -/

/-- Modelled from the spec: the enum `inputDriver.StatusFlag`, declared in the
driver package; the five values this package sets. -/
inductive StatusFlag where
  | STARTING
  | RUNNING
  | STOPPING
  | STOPPED
  | CLOSED
  deriving DecidableEq, Repr

/-- Modelled from the spec: the struct `inputDriver.PluginStatus`, declared in the
driver package; a status with the current error. -/
structure PluginStatus where
  Status : StatusFlag
  Error : GoError
  deriving DecidableEq, Repr

/-- The fields of `InputKafka` the lifecycle uses.  `PluginStatusChan` is `none`
for a nil channel and otherwise holds the messages sent on it, oldest first. -/
structure InputKafka where
  DbName : GoString
  status : Option StatusFlag
  err : GoError
  PluginStatusChan : Option (List PluginStatus)
  eventID : Nat
  kafkaGroup : Bool
  kafkaGroupClosed : Nat
  kafkaGroupCancel : Bool
  ctxCancelled : Bool
  deriving DecidableEq, Repr

/-- State made by `NewInputKafka`: every field zero. -/
def NewInputKafka : InputKafka :=
  { DbName := [], status := none, err := none, PluginStatusChan := none, eventID := 0,
    kafkaGroup := false, kafkaGroupClosed := 0, kafkaGroupCancel := false,
    ctxCancelled := false }

/-- Source function `setStatus`. -/
def setStatus (c : InputKafka) (status : StatusFlag) : InputKafka :=
  let c := { c with status := some status }
  let c := match status with
    | .CLOSED => { c with err := some [] }
    | _ => c
  match c.PluginStatusChan with
  | some sent => { c with PluginStatusChan := some (sent ++ [{ Status := status, Error := c.err }]) }
  | none => c

/-- Source function `Stop`. -/
def Stop (c : InputKafka) : InputKafka × GoError :=
  let c := setStatus c .STOPPING
  let c := if c.kafkaGroupCancel then { c with ctxCancelled := true } else c
  let c := { c with kafkaGroupCancel := false }
  let c := if c.kafkaGroup then { c with kafkaGroupClosed := c.kafkaGroupClosed + 1 } else c
  (c, none)

/-- Source function `Close`. -/
def Close (c : InputKafka) : InputKafka × GoError :=
  (setStatus c .CLOSED, none)

/-- Source function `Kill`. -/
def Kill (c : InputKafka) : InputKafka × GoError :=
  ((Stop c).1, none)

/-- One return of the blocking call `c.kafkaGroup.Consume`: whether the host
called `Stop()` while it was blocking, and the error it returned. -/
structure ConsumeReturn where
  stopCalled : Bool
  err : GoError
  deriving DecidableEq, Repr

/-- The outcomes of the external calls made during one run of `Start1`. -/
structure RunEnv where
  GetConn : GoError
  NewConsumerGroupFromClient : GoError
  GetTopics : Except GoString (List GoString)
  Consume : List ConsumeReturn

/-- The loop `for { c.err = c.kafkaGroup.Consume(...); if c.err != nil { return } }`.
The flag says whether the loop was left; it is not when the listed returns are
used up and `Consume` is still blocking. -/
def consumeLoop : List ConsumeReturn → InputKafka → InputKafka × Bool
  | [], c => (c, false)
  | r :: rest, c =>
    let c := if r.stopCalled then (Stop c).1 else c
    let c := { c with err := r.err }
    if r.err ≠ none then (c, true) else consumeLoop rest c

/-- The deferred calls of `GroupCosume`, in the order they run:
`c.setStatus(STOPPED)` then `c.kafkaGroup.Close()`. -/
def groupCosumeDeferred (c : InputKafka) : InputKafka :=
  let c := setStatus c .STOPPED
  { c with kafkaGroupClosed := c.kafkaGroupClosed + 1 }

/-- Source function `GroupCosume`; the flag says whether it returned. -/
def GroupCosume (env : RunEnv) (c : InputKafka) : InputKafka × Bool :=
  match env.GetTopics with
  | .error e => (groupCosumeDeferred { c with err := some e }, true)
  | .ok topics =>
    if topics.length = 0 then
      let c := { c with err := some "topics is empty".toList }
      let c := (Close c).1
      (groupCosumeDeferred c, true)
    else
      let c := setStatus c .RUNNING
      match consumeLoop env.Consume c with
      | (c, true) => (groupCosumeDeferred c, true)
      | (c, false) => (c, false)

/-- Source function `Start1`; the flag says whether it returned. -/
def Start1 (env : RunEnv) (c : InputKafka) : InputKafka × Bool :=
  match env.GetConn with
  | some e => ({ c with err := some e }, true)
  | none =>
    let c := { c with kafkaGroup := env.NewConsumerGroupFromClient.isNone,
                      err := env.NewConsumerGroupFromClient }
    if c.err ≠ none then (c, true)
    else GroupCosume env c

/-- The `for` loop of `Start0`, against the outcomes of the successive runs of
`Start1`.  The flag says whether `Start0` returned; it has not when the listed
runs are used up, the loop having emitted STARTING for the next one. -/
def Start0Loop : List RunEnv → InputKafka → InputKafka × Bool
  | [], c => (setStatus c .STARTING, false)
  | env :: rest, c =>
    let c := setStatus c .STARTING
    match Start1 env c with
    | (c, false) => (c, false)
    | (c, true) => if c.ctxCancelled then (c, true) else Start0Loop rest c

/-- Source function `Start0`: a fresh cancellable context, then the loop. -/
def Start0 (envs : List RunEnv) (c : InputKafka) : InputKafka × Bool :=
  Start0Loop envs { c with ctxCancelled := false, kafkaGroupCancel := true }

/-- Source function `Start`; the channel `ch` is given by the messages already
sent on it. -/
def Start (envs : List RunEnv) (c : InputKafka) (ch : List PluginStatus) :
    InputKafka × Bool :=
  Start0 envs { c with PluginStatusChan := some ch }

/-- The statuses sent on the status channel so far. -/
def emitted (c : InputKafka) : List StatusFlag :=
  match c.PluginStatusChan with
  | some sent => sent.map (fun m => m.Status)
  | none => []

/-- The status channel of `c2` holds what that of `c1` held, and possibly more
after it. -/
def ChanExtends (c1 c2 : InputKafka) : Prop :=
  ∀ sent, c1.PluginStatusChan = some sent →
    ∃ more, c2.PluginStatusChan = some (sent ++ more)

/-! ## `GetCosumeGroupId` -/

/-- The class `\w` of Go's `regexp/syntax`: `[0-9A-Za-z_]`. -/
def isWordChar (ch : Char) : Bool :=
  ('0' ≤ ch ∧ ch ≤ '9') ∨ ('A' ≤ ch ∧ ch ≤ 'Z') ∨ ch = '_' ∨ ('a' ≤ ch ∧ ch ≤ 'z')

/-- Scan of `regexp.MustCompile("[\\W]{1,}").ReplaceAllString(src, repl)`:
`inMatch` says that the previous character belongs to the current match.  A
match is a maximal run of characters outside `\w`; it is replaced by `repl`. -/
def replaceAllAux (repl : GoString) : Bool → GoString → GoString
  | _, [] => []
  | inMatch, ch :: rest =>
    if isWordChar ch then ch :: replaceAllAux repl false rest
    else if inMatch then replaceAllAux repl true rest
    else repl ++ replaceAllAux repl true rest

/-- Go `reg.ReplaceAllString(src, repl)` for `reg = [\W]{1,}`. -/
def ReplaceAllString (src repl : GoString) : GoString :=
  replaceAllAux repl false src

/-- Source function `GetCosumeGroupId`.  The constant `defaultKafkaGroupIdPrefix`
is declared outside the files at hand and is a parameter. -/
def GetCosumeGroupId (defaultKafkaGroupIdPrefix : GoString) (c : InputKafka)
    (paramGroupId : GoString) : GoString :=
  if paramGroupId ≠ [] then paramGroupId
  else defaultKafkaGroupIdPrefix ++ ReplaceAllString c.DbName []

/-! ## Event identifiers -/

/-- Source function `SetEventID`; the argument is a `uint64`. -/
def SetEventID (c : InputKafka) (eventId : Nat) : InputKafka × GoError :=
  ({ c with eventID := eventId }, none)

/-- Source function `getNextEventID`: `atomic.AddUint64(&c.eventID, 1)` on a
`uint64`, then the value of the field. -/
def getNextEventID (c : InputKafka) : InputKafka × Nat :=
  let c := { c with eventID := (c.eventID + 1) % 2 ^ 64 }
  (c, c.eventID)

/-- The values returned by `k` successive calls of `getNextEventID`. -/
def nextEventIDs : Nat → InputKafka → List Nat
  | 0, _ => []
  | k + 1, c => (getNextEventID c).2 :: nextEventIDs k (getNextEventID c).1

/-! ## Facts about the library model -/

theorem parseUintLoop_le (maxVal : Nat) :
    ∀ (s : GoString) (n v : Nat), n ≤ maxVal →
      parseUintLoop maxVal s n = .ok v → v ≤ maxVal := by
  intro s
  induction s with
  | nil =>
    intro n v hn h
    simp only [parseUintLoop, Except.ok.injEq] at h
    omega
  | cons c cs ih =>
    intro n v hn h
    unfold parseUintLoop at h
    simp only at h
    split_ifs at h with h1 h2 h3
    exact ih _ v (by omega) h

theorem ParseUint_le (s : GoString) (bitSize v : Nat)
    (h : ParseUint s bitSize = .ok v) : v ≤ 2 ^ bitSize - 1 := by
  unfold ParseUint at h
  split_ifs at h
  exact parseUintLoop_le _ s 0 v (Nat.zero_le _) h

theorem ParseInt_range (s : GoString) (bitSize : Nat) (v : Int)
    (h : ParseInt s bitSize = .ok v) :
    -(2 ^ (bitSize - 1) : Int) ≤ v ∧ v < 2 ^ (bitSize - 1) := by
  unfold ParseInt at h
  cases s with
  | nil => simp at h
  | cons c cs =>
    simp only at h
    split at h
    · simp at h
    · rename_i un hun
      have hpos : (0 : Int) < 2 ^ (bitSize - 1) := by positivity
      by_cases hneg : c = '-'
      · simp only [hneg, decide_True, Bool.not_true, Bool.false_eq_true, false_and,
          true_and, ite_false, ite_true] at h
        split_ifs at h with h2
        simp only [Except.ok.injEq] at h
        subst h
        have : (un : Int) ≤ 2 ^ (bitSize - 1) := by exact_mod_cast (not_lt.mp h2)
        omega
      · simp only [hneg, decide_False, Bool.not_false, true_and,
          Bool.false_eq_true, false_and, ite_false] at h
        split_ifs at h with h1
        simp only [Except.ok.injEq] at h
        subst h
        have : (un : Int) < 2 ^ (bitSize - 1) := by exact_mod_cast (not_le.mp h1)
        omega

theorem toInt32_ParseInt (s : GoString) (v : Int) (h : ParseInt s 32 = .ok v) :
    toInt32 v = v := by
  have := ParseInt_range s 32 v h
  simp only [Nat.add_one_sub_one] at this
  unfold toInt32
  omega

theorem splitAux_ne_nil (sep : Char) :
    ∀ (s cur : GoString), splitAux sep cur s ≠ [] := by
  intro s
  induction s with
  | nil => intro cur; simp [splitAux]
  | cons c cs ih =>
    intro cur
    unfold splitAux
    split_ifs
    · simp
    · exact ih _

theorem intercalate_cons_cons (sep a x : GoString) (xs : List GoString) :
    List.intercalate sep (a :: x :: xs) = a ++ sep ++ List.intercalate sep (x :: xs) := by
  simp [List.intercalate, List.intersperse]

/-- Joining the pieces kept by `splitAux` with the separator gives back what
was read. -/
theorem splitAux_join (sep : Char) :
    ∀ (s cur : GoString),
      List.intercalate [sep] (splitAux sep cur s) = cur.reverse ++ s := by
  intro s
  induction s with
  | nil => intro cur; simp [splitAux, List.intercalate]
  | cons c cs ih =>
    intro cur
    unfold splitAux
    split_ifs with h
    · have h2 := ih []
      cases hs : splitAux sep [] cs with
      | nil => exact absurd hs (splitAux_ne_nil sep cs [])
      | cons x xs =>
        rw [hs] at h2
        rw [intercalate_cons_cons, h2]
        simp [h]
    · rw [ih]; simp

/-- Model check of `Split`: the segments joined by the separator are the input. -/
theorem Split_join (s : GoString) (sep : Char) :
    List.intercalate [sep] (Split s sep) = s := by
  simpa [Split] using splitAux_join sep s []

theorem splitAux_no_sep (sep : Char) :
    ∀ (s cur : GoString), sep ∉ cur → ∀ seg ∈ splitAux sep cur s, sep ∉ seg := by
  intro s
  induction s with
  | nil => intro cur hc seg hseg; simp [splitAux] at hseg; subst hseg; simpa using hc
  | cons c cs ih =>
    intro cur hc seg hseg
    unfold splitAux at hseg
    split_ifs at hseg with h
    · rcases List.mem_cons.mp hseg with h1 | h1
      · subst h1; simpa using hc
      · exact ih [] (by simp) seg h1
    · refine ih (c :: cur) ?_ seg hseg
      simp only [List.mem_cons, not_or]
      exact ⟨fun e => h e.symm, hc⟩

/-- Model check of `Split`: no segment contains the separator. -/
theorem Split_no_sep (s : GoString) (sep : Char) : ∀ seg ∈ Split s sep, sep ∉ seg :=
  splitAux_no_sep sep s [] (by simp)

/-- The loop of `TransferWaitCommitOffsetList` appends, in order, the decoding of
every segment that decodes. -/
theorem transferLoop_eq :
    ∀ (segs : List GoString) (data : List waitCommitOffset),
      transferLoop segs data = data ++ segs.filterMap decodeSegment := by
  intro segs
  induction segs with
  | nil => intro data; simp [transferLoop]
  | cons gtid rest ih =>
    intro data
    unfold transferLoop
    simp only [List.filterMap_cons, decodeSegment]
    rcases hS : Split gtid ':' with _ | ⟨a, _ | ⟨b, _ | ⟨c, _ | ⟨d, t⟩⟩⟩⟩
    · simp [ih]
    · simp [ih]
    · simp [ih]
    · simp only [List.length_cons, List.length_nil, ne_eq, not_true_eq_false, ite_false,
        List.getD_cons_zero, List.getD_cons_succ, zero_add, Nat.reduceAdd]
      cases hb : ParseInt b 32 with
      | error e => simp [ih]
      | ok pv =>
        cases hc : ParseInt c 64 with
        | error e => simp [ih]
        | ok ov => simp [ih, toInt32_ParseInt b pv hb]
    · simp [ih]

theorem decodeSegment_eq_some (seg : GoString) (w : waitCommitOffset) :
    decodeSegment seg = some w ↔
      ∃ f1 f2 f3, Split seg ':' = [f1, f2, f3] ∧ ParseInt f2 32 = .ok w.partition ∧
        ParseInt f3 64 = .ok w.offset ∧ w.topic = f1 := by
  unfold decodeSegment
  rcases hS : Split seg ':' with _ | ⟨a, _ | ⟨b, _ | ⟨c, _ | ⟨d, t⟩⟩⟩⟩
  · simp
  · simp
  · simp
  · cases hb : ParseInt b 32 with
    | error e => simp [hb]
    | ok pv =>
      cases hc : ParseInt c 64 with
      | error e => simp [hb, hc]
      | ok ov =>
        simp only [hb, hc, Option.some.injEq, List.cons.injEq, and_true, Except.ok.injEq]
        constructor
        · rintro rfl
          exact ⟨a, b, c, ⟨rfl, rfl, rfl⟩, hb, hc, rfl⟩
        · rintro ⟨f1, f2, f3, ⟨rfl, rfl, rfl⟩, h2, h3, h4⟩
          rw [hb] at h2
          rw [hc] at h3
          cases w
          simp only [Except.ok.injEq] at h2 h3
          simp_all
  · simp

theorem TransferWaitCommitOffsetList_eq (p : PluginPosition) :
    TransferWaitCommitOffsetList (some p) = (Split p.GTID ',').filterMap decodeSegment := by
  unfold TransferWaitCommitOffsetList
  simp only
  split_ifs with h
  · rw [h]
    simp [Split, splitAux, decodeSegment]
  · rw [transferLoop_eq]
    simp

/-- C1: `TransferWaitCommitOffsetList` returns, in input order, the decoding of
exactly those comma-separated segments that split on `:` into 3 fields whose
2nd field parses as an int32 and whose 3rd parses as an int64, each mapped to
(field1, partition, offset); the result is empty for a nil position, for an
empty string and when no segment decodes. -/
theorem TransferWaitCommitOffsetList_decodes :
    TransferWaitCommitOffsetList none = [] ∧
    (∀ eid, TransferWaitCommitOffsetList (some ⟨[], eid⟩) = []) ∧
    (∀ gtid eid, TransferWaitCommitOffsetList (some ⟨gtid, eid⟩) =
      (Split gtid ',').filterMap decodeSegment) ∧
    (∀ seg w, decodeSegment seg = some w ↔
      ∃ f1 f2 f3, Split seg ':' = [f1, f2, f3] ∧ ParseInt f2 32 = .ok w.partition ∧
        ParseInt f3 64 = .ok w.offset ∧ w.topic = f1) ∧
    (∀ gtid eid, (∀ seg ∈ Split gtid ',', decodeSegment seg = none) →
      TransferWaitCommitOffsetList (some ⟨gtid, eid⟩) = []) := by
  refine ⟨rfl, fun _ => rfl, fun gtid eid => TransferWaitCommitOffsetList_eq _,
    decodeSegment_eq_some, ?_⟩
  intro gtid eid h
  rw [TransferWaitCommitOffsetList_eq]
  simpa [List.filterMap_eq_nil_iff] using h

/-- The example of the specification, and an input whose segments are all
malformed. -/
theorem TransferWaitCommitOffsetList_decodes_witness :
    TransferWaitCommitOffsetList (some ⟨"t1:0:100,bad,t2:1:55".toList, 7⟩) =
      [⟨"t1".toList, 0, 100⟩, ⟨"t2".toList, 1, 55⟩] ∧
    (∀ seg ∈ Split "bad,a:b:c,t:1,t:2147483648:5".toList ',', decodeSegment seg = none) ∧
    TransferWaitCommitOffsetList (some ⟨"bad,a:b:c,t:1,t:2147483648:5".toList, 7⟩) = [] :=
  ⟨(TransferWaitCommitOffsetList_decodes.2.2.1 _ 7).trans (by decide), by decide,
    TransferWaitCommitOffsetList_decodes.2.2.2.2 _ 7 (by decide)⟩

/-! ## The commit loop -/

theorem commitRange_eq :
    ∀ (data : List waitCommitOffset) (calls : List BrokerCall),
      commitRange data calls = calls ++ commitSequenceInt64 data := by
  intro data
  induction data with
  | nil => intro calls; simp [commitRange, commitSequenceInt64]
  | cons t rest ih =>
    intro calls
    unfold commitRange
    rw [ih]
    simp [commitSequenceInt64]

theorem commitStep_of_returned (st : CommitLoop) (ev : SelectEvent)
    (h : st.returned = true) : commitStep st ev = st := by
  simp [commitStep, h]

theorem foldl_commitStep_of_returned (evs : List SelectEvent) :
    ∀ (st : CommitLoop), st.returned = true → evs.foldl commitStep st = st := by
  induction evs with
  | nil => intro st _; rfl
  | cons ev rest ih =>
    intro st h
    rw [List.foldl_cons, commitStep_of_returned st ev h]
    exact ih st h

theorem commitStep_recv (st : CommitLoop) (p : PluginPosition) (h : st.returned = false) :
    (commitStep st (.recv (some p))).returned = false ∧
    (commitStep st (.recv (some p))).lastEventId = p.EventID ∧
    (commitStep st (.recv (some p))).calls =
      st.calls ++ (if p.EventID = st.lastEventId then []
        else commitSequenceInt64 (TransferWaitCommitOffsetList (some p))) := by
  unfold commitStep
  by_cases he : p.EventID = st.lastEventId
  · simp [h, he]
  · simp [h, he, commitRange_eq]

theorem foldl_received_returned (ps : List PluginPosition) :
    ∀ (st : CommitLoop), st.returned = false →
      ((received ps).foldl commitStep st).returned = false := by
  induction ps with
  | nil => intro st h; simpa [received] using h
  | cons p rest ih =>
    intro st h
    simp only [received, List.map_cons, List.foldl_cons]
    exact ih _ (commitStep_recv st p h).1

/-- C2: in `ConsumePluginPosition` run over the received non-nil positions, with
`lastEventId` starting at 0, a position `q` received right after a position
`p` issues no call when its EventID equals that of `p`, and issues the commit
sequence of its decoded triples when its EventID differs (smaller or larger),
whatever its decoded offsets are. -/
theorem ConsumePluginPosition_dedup (ps : List PluginPosition) (p q : PluginPosition) :
    (ConsumePluginPosition (received (ps ++ [p, q]))).calls =
      (ConsumePluginPosition (received (ps ++ [p]))).calls ++
        (if q.EventID = p.EventID then []
         else commitRange (TransferWaitCommitOffsetList (some q)) []) := by
  have hsplit : received (ps ++ [p, q]) = received (ps ++ [p]) ++ [.recv (some q)] := by
    simp [received]
  have hp : received (ps ++ [p]) = received ps ++ [.recv (some p)] := by
    simp [received]
  unfold ConsumePluginPosition
  rw [hsplit, List.foldl_append, List.foldl_cons, List.foldl_nil]
  have hret : ((received (ps ++ [p])).foldl commitStep
      { lastEventId := 0, calls := [], returned := false }).returned = false :=
    foldl_received_returned _ _ rfl
  have hlast : ((received (ps ++ [p])).foldl commitStep
      { lastEventId := 0, calls := [], returned := false }).lastEventId = p.EventID := by
    rw [hp, List.foldl_append, List.foldl_cons, List.foldl_nil]
    exact (commitStep_recv _ p (foldl_received_returned ps _ rfl)).2.1
  rw [(commitStep_recv _ q hret).2.2, hlast, commitRange_eq, List.nil_append]

/-- Two positions with EventID 5 in a row, and a position with the smaller
EventID 3 after one with EventID 5, both with the same encoded offsets. -/
theorem ConsumePluginPosition_dedup_witness :
    (ConsumePluginPosition (received ([] ++ [⟨"t:0:7".toList, 5⟩, ⟨"t:0:7".toList, 5⟩]))).calls =
      [BrokerCall.MarkOffset "t".toList 0 8 [], BrokerCall.Commit] ∧
    (ConsumePluginPosition (received ([] ++ [⟨"t:0:7".toList, 5⟩, ⟨"t:0:7".toList, 3⟩]))).calls =
      [BrokerCall.MarkOffset "t".toList 0 8 [], BrokerCall.Commit,
       BrokerCall.MarkOffset "t".toList 0 8 [], BrokerCall.Commit] :=
  ⟨(ConsumePluginPosition_dedup [] ⟨"t:0:7".toList, 5⟩ ⟨"t:0:7".toList, 5⟩).trans (by decide),
   (ConsumePluginPosition_dedup [] ⟨"t:0:7".toList, 5⟩ ⟨"t:0:7".toList, 3⟩).trans (by decide)⟩

theorem TransferWaitCommitOffsetList_offset_range (p : PluginPosition) :
    ∀ t ∈ TransferWaitCommitOffsetList (some p),
      -(2 ^ 63 : Int) ≤ t.offset ∧ t.offset < 2 ^ 63 := by
  intro t ht
  rw [TransferWaitCommitOffsetList_eq, List.mem_filterMap] at ht
  obtain ⟨seg, _, hseg⟩ := ht
  obtain ⟨f1, f2, f3, _, _, h3, _⟩ := (decodeSegment_eq_some seg t).mp hseg
  simpa using ParseInt_range f3 64 t.offset h3

theorem commitSequenceInt64_eq (data : List waitCommitOffset)
    (h : ∀ t ∈ data, -(2 ^ 63 : Int) ≤ t.offset ∧ t.offset < 2 ^ 63 - 1) :
    commitSequenceInt64 data = commitSequence data := by
  induction data with
  | nil => rfl
  | cons t rest ih =>
    have ht := h t (List.mem_cons_self _ _)
    have hw : wrapInt64 (t.offset + 1) = t.offset + 1 := by
      unfold wrapInt64
      omega
    have hrest := ih (fun u hu => h u (List.mem_cons_of_mem _ hu))
    simp only [commitSequenceInt64, commitSequence, List.flatMap_cons] at hrest ⊢
    rw [hw, hrest]

theorem commitSequenceInt64_count (data : List waitCommitOffset) :
    (commitSequenceInt64 data).count BrokerCall.Commit = data.length := by
  induction data with
  | nil => rfl
  | cons t rest ih =>
    simp only [commitSequenceInt64, List.flatMap_cons] at ih ⊢
    simp [List.count_cons, ih]

/-- C3 as stated fails: for the position `t:0:9223372036854775807` the int64 sum
`offset+1` wraps, and the mark is `-9223372036854775808`, not `N+1`. -/
theorem commit_mark_overflow :
    (ConsumePluginPosition
        [.recv (some ⟨"t:0:9223372036854775807".toList, 1⟩)]).calls =
      [BrokerCall.MarkOffset "t".toList 0 (-9223372036854775808) [], BrokerCall.Commit] ∧
    (ConsumePluginPosition
        [.recv (some ⟨"t:0:9223372036854775807".toList, 1⟩)]).calls ≠
      commitSequence
        (TransferWaitCommitOffsetList (some ⟨"t:0:9223372036854775807".toList, 1⟩)) := by
  decide

/-- C3 (amended): a position the loop processes issues, for each decoded triple in
order, one `MarkOffset(topic, partition, m, "")` followed by one `Commit()`,
where `m` is `offset+1` in int64 arithmetic; when no decoded offset is
`2^63-1` every mark is exactly `N+1`; the number of `Commit` calls is the
number of decoded triples. -/
theorem commitStep_marks (st : CommitLoop) (p : PluginPosition)
    (hr : st.returned = false) (hne : p.EventID ≠ st.lastEventId) :
    (commitStep st (.recv (some p))).calls =
      st.calls ++ commitSequenceInt64 (TransferWaitCommitOffsetList (some p)) ∧
    ((∀ t ∈ TransferWaitCommitOffsetList (some p), t.offset ≠ 2 ^ 63 - 1) →
      (commitStep st (.recv (some p))).calls =
        st.calls ++ commitSequence (TransferWaitCommitOffsetList (some p))) ∧
    (commitSequenceInt64 (TransferWaitCommitOffsetList (some p))).count BrokerCall.Commit =
      (TransferWaitCommitOffsetList (some p)).length := by
  have h1 := (commitStep_recv st p hr).2.2
  rw [if_neg hne] at h1
  refine ⟨h1, ?_, commitSequenceInt64_count _⟩
  intro hno
  rw [h1, commitSequenceInt64_eq]
  intro t ht
  have := TransferWaitCommitOffsetList_offset_range p t ht
  have := hno t ht
  omega

/-- A processed position with two decoded triples, none at the top of the int64
range. -/
theorem commitStep_marks_witness :
    (commitStep ⟨0, [], false⟩ (.recv (some ⟨"t1:0:100,bad,t2:1:55".toList, 3⟩))).calls =
      [] ++ commitSequence
        (TransferWaitCommitOffsetList (some ⟨"t1:0:100,bad,t2:1:55".toList, 3⟩)) :=
  (commitStep_marks ⟨0, [], false⟩ ⟨"t1:0:100,bad,t2:1:55".toList, 3⟩ rfl (by decide)).2.1
    (by decide)

/-! ## The queue -/

/-- C4: `DoneMinPosition` returns a nil error for every position, queue and
wake-up; a non-nil position is appended at the tail when the queue holds
fewer than 500 entries; when the queue holds 500 entries and the timer fires
the queue is unchanged; a queue of at most 500 entries stays so. -/
theorem DoneMinPosition_lossy (queue : List (Option PluginPosition))
    (p : Option PluginPosition) (w : Wakeup) :
    (DoneMinPosition queue p w).2 = none ∧
    (∀ x, p = some x → queue.length < 500 →
      (DoneMinPosition queue p w).1 = queue ++ [some x]) ∧
    (∀ x, p = some x → queue.length = 500 → w = Wakeup.timer →
      (DoneMinPosition queue p w).1 = queue) ∧
    (queue.length ≤ 500 → (DoneMinPosition queue p w).1.length ≤ 500) := by
  unfold DoneMinPosition waitCommitOffsetCap
  refine ⟨?_, ?_, ?_, ?_⟩
  · cases p with
    | none => rfl
    | some x => simp only; split_ifs <;> cases w <;> rfl
  · rintro x rfl h
    simp [h]
  · rintro x rfl h rfl
    simp [h]
  · intro h
    cases p with
    | none => simpa using h
    | some x =>
      simp only
      split_ifs with h1
      · simp only [List.length_append, List.length_singleton]; omega
      · cases w
        · simpa using h
        · simp only [List.length_append, List.length_tail, List.length_singleton]; omega

/-- A submission to a queue with room, and one to a full queue whose timer
fires. -/
theorem DoneMinPosition_lossy_witness :
    (DoneMinPosition [some ⟨"a:0:1".toList, 1⟩] (some ⟨"a:0:2".toList, 2⟩) Wakeup.timer).1 =
      [some ⟨"a:0:1".toList, 1⟩] ++ [some ⟨"a:0:2".toList, 2⟩] ∧
    (DoneMinPosition (List.replicate 500 (some ⟨"a:0:1".toList, 1⟩))
        (some ⟨"a:0:2".toList, 2⟩) Wakeup.timer).1 =
      List.replicate 500 (some ⟨"a:0:1".toList, 1⟩) ∧
    (DoneMinPosition (List.replicate 500 (some ⟨"a:0:1".toList, 1⟩))
        (some ⟨"a:0:2".toList, 2⟩) Wakeup.receiver).1.length ≤ 500 :=
  ⟨(DoneMinPosition_lossy _ _ _).2.1 _ rfl (by decide),
   (DoneMinPosition_lossy _ _ _).2.2.1 _ rfl (List.length_replicate _ _) rfl,
   (DoneMinPosition_lossy _ _ _).2.2.2 (List.length_replicate _ _).le⟩

/-- C10 as stated fails: `DoneMinPosition(nil)` returns at its first line and
leaves the queue as it was; no nil entry is placed on it. -/
theorem DoneMinPosition_nil_not_enqueued :
    (DoneMinPosition [] none Wakeup.timer).1 = [] ∧
    none ∉ (DoneMinPosition [some ⟨"a:0:1".toList, 1⟩] none Wakeup.receiver).1 := by
  decide

/-- C10 (amended): `DoneMinPosition(nil)` leaves the queue unchanged and returns
nil; a commit loop that receives a nil from the queue returns there, issues no
call for it and processes nothing that comes after it. -/
theorem ConsumePluginPosition_nil_returns :
    (∀ (queue : List (Option PluginPosition)) (w : Wakeup),
      DoneMinPosition queue none w = (queue, none)) ∧
    (∀ (before later : List SelectEvent),
      (ConsumePluginPosition (before ++ SelectEvent.recv none :: later)).returned = true ∧
      (ConsumePluginPosition (before ++ SelectEvent.recv none :: later)).calls =
        (ConsumePluginPosition before).calls ∧
      (ConsumePluginPosition (before ++ SelectEvent.recv none :: later)).lastEventId =
        (ConsumePluginPosition before).lastEventId) := by
  refine ⟨fun _ _ => rfl, ?_⟩
  intro before later
  unfold ConsumePluginPosition
  rw [List.foldl_append, List.foldl_cons]
  generalize before.foldl commitStep { lastEventId := 0, calls := [], returned := false } = st
  have hstep : (commitStep st (.recv none)).returned = true ∧
      (commitStep st (.recv none)).calls = st.calls ∧
      (commitStep st (.recv none)).lastEventId = st.lastEventId := by
    unfold commitStep
    by_cases h : st.returned = true
    · simp [h]
    · simp [h]
  rw [foldl_commitStep_of_returned later _ hstep.1]
  exact hstep

/-! ## Lifecycle -/

theorem setStatus_status (c : InputKafka) (s : StatusFlag) :
    (setStatus c s).status = some s := by
  unfold setStatus
  cases s <;> cases h : c.PluginStatusChan <;> simp [h]

theorem emitted_setStatus (c : InputKafka) (s : StatusFlag) :
    emitted (setStatus c s) =
      emitted c ++ (if c.PluginStatusChan.isSome then [s] else []) := by
  unfold setStatus emitted
  cases s <;> cases h : c.PluginStatusChan <;> simp [h]

theorem setStatus_CLOSED_err (c : InputKafka) :
    (setStatus c .CLOSED).err = some [] ∧
    ∀ sent, c.PluginStatusChan = some sent →
      (setStatus c .CLOSED).PluginStatusChan =
        some (sent ++ [{ Status := .CLOSED, Error := some [] }]) := by
  unfold setStatus
  cases h : c.PluginStatusChan <;> simp [h]

theorem Stop_fields (c : InputKafka) :
    (Stop c).1.status = (setStatus c .STOPPING).status ∧
    (Stop c).1.PluginStatusChan = (setStatus c .STOPPING).PluginStatusChan := by
  unfold Stop
  simp only
  split_ifs <;> exact ⟨rfl, rfl⟩

theorem Stop_status (c : InputKafka) :
    (Stop c).1.status = some .STOPPING ∧
    emitted (Stop c).1 = emitted c ++ (if c.PluginStatusChan.isSome then [.STOPPING] else []) := by
  constructor
  · rw [(Stop_fields c).1, setStatus_status]
  · rw [← emitted_setStatus]
    unfold emitted
    rw [(Stop_fields c).2]

theorem ChanExtends.refl (c : InputKafka) : ChanExtends c c :=
  fun sent h => ⟨[], by simpa using h⟩

theorem ChanExtends.trans {c1 c2 c3 : InputKafka} (h12 : ChanExtends c1 c2)
    (h23 : ChanExtends c2 c3) : ChanExtends c1 c3 := by
  intro sent h
  obtain ⟨m1, h1⟩ := h12 sent h
  obtain ⟨m2, h2⟩ := h23 _ h1
  exact ⟨m1 ++ m2, by rw [h2, List.append_assoc]⟩

theorem ChanExtends.of_eq {c1 c2 : InputKafka}
    (h : c2.PluginStatusChan = c1.PluginStatusChan) : ChanExtends c1 c2 :=
  fun sent hs => ⟨[], by rw [h, hs, List.append_nil]⟩

theorem setStatus_extends (c : InputKafka) (s : StatusFlag) :
    ChanExtends c (setStatus c s) := by
  intro sent h
  unfold setStatus
  cases s <;> simp [h]

theorem Stop_extends (c : InputKafka) : ChanExtends c (Stop c).1 :=
  (setStatus_extends c .STOPPING).trans (ChanExtends.of_eq (Stop_fields c).2)

theorem withErr_extends (c : InputKafka) (e : GoError) :
    ChanExtends c { c with err := e } :=
  fun sent h => ⟨[], by simpa using h⟩

theorem withGroup_extends (c : InputKafka) (k : Bool) (e : GoError) :
    ChanExtends c { c with kafkaGroup := k, err := e } :=
  fun sent h => ⟨[], by simpa using h⟩

theorem consumeLoop_extends :
    ∀ (rs : List ConsumeReturn) (c : InputKafka), ChanExtends c (consumeLoop rs c).1 := by
  intro rs
  induction rs with
  | nil => intro c; exact ChanExtends.refl c
  | cons r rest ih =>
    intro c
    have hstop : ChanExtends c (if r.stopCalled then (Stop c).1 else c) := by
      split_ifs
      · exact Stop_extends c
      · exact ChanExtends.refl c
    have herr := hstop.trans (withErr_extends _ r.err)
    unfold consumeLoop
    simp only
    by_cases he : r.err ≠ none
    · rw [if_pos he]
      exact herr
    · rw [if_neg he]
      exact herr.trans (ih _)

theorem groupCosumeDeferred_extends (c : InputKafka) :
    ChanExtends c (groupCosumeDeferred c) :=
  (setStatus_extends c .STOPPED).trans (fun sent h => ⟨[], by simpa [groupCosumeDeferred] using h⟩)

theorem GroupCosume_extends (env : RunEnv) (c : InputKafka) :
    ChanExtends c (GroupCosume env c).1 := by
  unfold GroupCosume
  cases env.GetTopics with
  | error e =>
    exact (withErr_extends c (some e)).trans (groupCosumeDeferred_extends _)
  | ok topics =>
    simp only
    by_cases ht : topics.length = 0
    · rw [if_pos ht]
      exact ((withErr_extends c _).trans (setStatus_extends _ .CLOSED)).trans
        (groupCosumeDeferred_extends _)
    · rw [if_neg ht]
      have h1 := setStatus_extends c .RUNNING
      have h2 := consumeLoop_extends env.Consume (setStatus c .RUNNING)
      rcases hc : consumeLoop env.Consume (setStatus c .RUNNING) with ⟨c2, b⟩
      rw [hc] at h2
      cases b
      · exact h1.trans h2
      · exact (h1.trans h2).trans (groupCosumeDeferred_extends _)

theorem Start1_extends (env : RunEnv) (c : InputKafka) :
    ChanExtends c (Start1 env c).1 := by
  unfold Start1
  cases env.GetConn with
  | some e => exact withErr_extends c (some e)
  | none =>
    simp only
    have hk := withGroup_extends c env.NewConsumerGroupFromClient.isNone
      env.NewConsumerGroupFromClient
    by_cases he : env.NewConsumerGroupFromClient ≠ none
    · rw [if_pos he]
      exact hk
    · rw [if_neg he]
      exact hk.trans (GroupCosume_extends env _)

/-- Every entry of the loop of `Start0` sends STARTING first. -/
theorem Start0Loop_emits_STARTING :
    ∀ (envs : List RunEnv) (c : InputKafka) (sent : List PluginStatus),
      c.PluginStatusChan = some sent →
      ∃ more, (Start0Loop envs c).1.PluginStatusChan =
        some (sent ++ { Status := .STARTING, Error := c.err } :: more) := by
  intro envs
  induction envs with
  | nil =>
    intro c sent h
    exact ⟨[], by simp [Start0Loop, setStatus, h]⟩
  | cons env rest ih =>
    intro c sent h
    have h0 : (setStatus c .STARTING).PluginStatusChan =
        some (sent ++ [{ Status := .STARTING, Error := c.err }]) := by
      simp [setStatus, h]
    obtain ⟨m1, h1⟩ := Start1_extends env _ _ h0
    unfold Start0Loop
    simp only
    split
    · rename_i c2 hc
      rw [hc] at h1
      exact ⟨m1, by simpa using h1⟩
    · rename_i c2 hc
      rw [hc] at h1
      split_ifs
      · exact ⟨m1, by simpa using h1⟩
      · obtain ⟨m2, h2⟩ := ih c2 _ h1
        exact ⟨m1 ++ _ :: m2, by simpa using h2⟩

/-- One run of the loop of `Start0` with zero topics: the state the next run
starts from. -/
theorem Start0Loop_zero_topics (c : InputKafka) (env : RunEnv) (rest : List RunEnv)
    (h1 : env.GetConn = none) (h2 : env.NewConsumerGroupFromClient = none)
    (h3 : env.GetTopics = .ok []) (hc : c.ctxCancelled = false) :
    Start0Loop (env :: rest) c =
      Start0Loop rest
        (groupCosumeDeferred
          (Close { setStatus c .STARTING with
            kafkaGroup := true, err := some "topics is empty".toList }).1) := by
  have hcc : (groupCosumeDeferred
      (Close { setStatus c .STARTING with
        kafkaGroup := true, err := some "topics is empty".toList }).1).ctxCancelled = false := by
    unfold groupCosumeDeferred Close setStatus
    cases h : c.PluginStatusChan <;> simp [h, hc]
  have hrun : Start1 env (setStatus c .STARTING) =
      (groupCosumeDeferred
        (Close { setStatus c .STARTING with
          kafkaGroup := true, err := some "topics is empty".toList }).1, true) := by
    simp [Start1, GroupCosume, h1, h2, h3]
  rw [Start0Loop]
  simp only [hrun, hcc, Bool.false_eq_true, ite_false]

theorem zero_topics_chan (c : InputKafka) (sent : List PluginStatus)
    (h : c.PluginStatusChan = some sent) :
    (groupCosumeDeferred
      (Close { setStatus c .STARTING with
        kafkaGroup := true, err := some "topics is empty".toList }).1).PluginStatusChan =
      some (sent ++ [⟨.STARTING, c.err⟩, ⟨.CLOSED, some []⟩, ⟨.STOPPED, some []⟩]) := by
  simp [Close, groupCosumeDeferred, setStatus, h]

/-- C5, the code at an empty topic list: whatever the adapter state, the channel
and the later runs, a run whose topic discovery succeeds with zero topics
emits STARTING, then CLOSED, then STOPPED, and the loop of `Start0` goes on
and emits STARTING again; with no later run listed, `Start0` has not returned
and the status is STARTING, not CLOSED. -/
theorem Start_zero_topics (c : InputKafka) (ch : List PluginStatus) (env : RunEnv)
    (rest : List RunEnv)
    (h1 : env.GetConn = none) (h2 : env.NewConsumerGroupFromClient = none)
    (h3 : env.GetTopics = .ok []) :
    (∃ more, emitted (Start (env :: rest) c ch).1 =
      ch.map (fun m => m.Status) ++
        [StatusFlag.STARTING, StatusFlag.CLOSED, StatusFlag.STOPPED, StatusFlag.STARTING]
        ++ more) ∧
    emitted (Start [env] c ch).1 =
      ch.map (fun m => m.Status) ++
        [StatusFlag.STARTING, StatusFlag.CLOSED, StatusFlag.STOPPED, StatusFlag.STARTING] ∧
    (Start [env] c ch).1.status = some StatusFlag.STARTING ∧
    (Start [env] c ch).2 = false := by
  refine ⟨?_, ?_⟩
  · unfold Start Start0
    rw [Start0Loop_zero_topics _ env rest h1 h2 h3 rfl]
    obtain ⟨more, hm⟩ := Start0Loop_emits_STARTING rest _ _
      (zero_topics_chan
        { c with PluginStatusChan := some ch, ctxCancelled := false, kafkaGroupCancel := true }
        ch rfl)
    refine ⟨more.map (fun m => m.Status), ?_⟩
    unfold emitted
    rw [hm]
    simp
  · simp [Start, Start0, Start0Loop, Start1, GroupCosume, Close, groupCosumeDeferred,
      setStatus, emitted, h1, h2, h3]

/-- A fresh adapter started on a source with no topics. -/
theorem Start_zero_topics_witness :
    emitted (Start [⟨none, none, .ok [], []⟩] NewInputKafka []).1 =
      [StatusFlag.STARTING, StatusFlag.CLOSED, StatusFlag.STOPPED, StatusFlag.STARTING] :=
  (Start_zero_topics NewInputKafka [] ⟨none, none, .ok [], []⟩ [] rfl rfl rfl).2.1

/-- C8 as stated fails: after `Close` the status is CLOSED, and a following `Stop`
changes it to STOPPING and emits STOPPING. -/
theorem Stop_after_Close :
    (Close { NewInputKafka with PluginStatusChan := some [] }).1.status
      = some StatusFlag.CLOSED ∧
    (Stop (Close { NewInputKafka with PluginStatusChan := some [] }).1).1.status
      = some StatusFlag.STOPPING ∧
    emitted (Stop (Close { NewInputKafka with PluginStatusChan := some [] }).1).1
      = [StatusFlag.CLOSED, StatusFlag.STOPPING] := by
  decide

/-- C8 (amended): `setStatus` overwrites the status whatever it was.  In a state
whose status is CLOSED, `Close` leaves it CLOSED and emits only CLOSED, while
`Stop` and `Kill` set it to STOPPING and emit STOPPING. -/
theorem CLOSED_overwritten (c : InputKafka) (h : c.status = some StatusFlag.CLOSED) :
    (∀ s, (setStatus c s).status = some s) ∧
    (Close c).1.status = c.status ∧
    emitted (Close c).1 =
      emitted c ++ (if c.PluginStatusChan.isSome then [StatusFlag.CLOSED] else []) ∧
    (Stop c).1.status = some StatusFlag.STOPPING ∧
    (Kill c).1.status = some StatusFlag.STOPPING ∧
    emitted (Stop c).1 =
      emitted c ++ (if c.PluginStatusChan.isSome then [StatusFlag.STOPPING] else []) := by
  refine ⟨setStatus_status c, ?_, emitted_setStatus c _, (Stop_status c).1,
    (Stop_status c).1, (Stop_status c).2⟩
  rw [h]
  exact setStatus_status c _

/-- A closed adapter with a status channel. -/
theorem CLOSED_overwritten_witness :
    (Stop (Close { NewInputKafka with PluginStatusChan := some [] }).1).1.status =
      some StatusFlag.STOPPING :=
  (CLOSED_overwritten (Close { NewInputKafka with PluginStatusChan := some [] }).1
    (by decide)).2.2.2.1

/-- C9 as stated fails: `Kill` on a fresh adapter leaves the status STOPPING and
emits STOPPING, not CLOSED. -/
theorem Kill_not_CLOSED :
    (Kill { NewInputKafka with PluginStatusChan := some [] }).1.status
      = some StatusFlag.STOPPING ∧
    emitted (Kill { NewInputKafka with PluginStatusChan := some [] }).1
      = [StatusFlag.STOPPING] ∧
    StatusFlag.CLOSED ∉ emitted (Kill { NewInputKafka with PluginStatusChan := some [] }).1 := by
  decide

/-- C9 (amended): `Close()` sets the status to CLOSED, emits CLOSED with a non-nil
error when the channel is set, and returns nil; `Kill()` does what `Stop()`
does: it sets the status to STOPPING, emits STOPPING when the channel is set,
and returns nil. -/
theorem Close_Kill (c : InputKafka) :
    ((Close c).1.status = some StatusFlag.CLOSED ∧ (Close c).2 = none ∧
      emitted (Close c).1 =
        emitted c ++ (if c.PluginStatusChan.isSome then [StatusFlag.CLOSED] else []) ∧
      (∀ sent, c.PluginStatusChan = some sent →
        (Close c).1.PluginStatusChan =
          some (sent ++ [{ Status := StatusFlag.CLOSED, Error := some [] }]))) ∧
    ((Kill c).1 = (Stop c).1 ∧ (Kill c).1.status = some StatusFlag.STOPPING ∧
      (Kill c).2 = none ∧
      emitted (Kill c).1 =
        emitted c ++ (if c.PluginStatusChan.isSome then [StatusFlag.STOPPING] else [])) :=
  ⟨⟨setStatus_status c _, rfl, emitted_setStatus c _, (setStatus_CLOSED_err c).2⟩,
   ⟨rfl, (Stop_status c).1, rfl, (Stop_status c).2⟩⟩

/-- An adapter with a status channel that has seen RUNNING. -/
theorem Close_Kill_witness :
    (Close { NewInputKafka with
        PluginStatusChan := some [⟨StatusFlag.RUNNING, none⟩] }).1.PluginStatusChan =
      some ([⟨StatusFlag.RUNNING, none⟩] ++ [{ Status := StatusFlag.CLOSED, Error := some [] }]) :=
  (Close_Kill { NewInputKafka with
      PluginStatusChan := some [⟨StatusFlag.RUNNING, none⟩] }).1.2.2.2 _ rfl

/-! ## Group id -/

theorem replaceAllAux_nil :
    ∀ (src : GoString) (inMatch : Bool),
      replaceAllAux [] inMatch src = src.filter isWordChar := by
  intro src
  induction src with
  | nil => intro b; rfl
  | cons ch rest ih =>
    intro b
    unfold replaceAllAux
    by_cases hw : isWordChar ch = true
    · simp [hw, ih]
    · cases b <;> simp [hw, ih]

/-- The class kept by the sanitizer is the ASCII letters, the digits and the
underscore. -/
theorem isWordChar_iff (ch : Char) :
    isWordChar ch = true ↔ (ch.isAlphanum = true ∨ ch = '_') := by
  simp only [isWordChar, Char.isAlphanum, Char.isAlpha, Char.isUpper, Char.isLower,
    Char.isDigit, Bool.or_eq_true, Bool.and_eq_true, decide_eq_true_eq, Char.le_def,
    UInt32.le_def, ge_iff_le]
  have h0 : ('0' : Char).val = 48 := rfl
  have h9 : ('9' : Char).val = 57 := rfl
  have hA : ('A' : Char).val = 65 := rfl
  have hZ : ('Z' : Char).val = 90 := rfl
  have ha : ('a' : Char).val = 97 := rfl
  have hz : ('z' : Char).val = 122 := rfl
  rw [h0, h9, hA, hZ, ha, hz]
  tauto

/-- C6: a non-empty configured group id is returned unchanged; with an empty one
the result is the fixed prefix followed by the data-source name with every
character other than ASCII letters, digits and underscore removed, the kept
characters in their original order. -/
theorem GetCosumeGroupId_derivation (defaultKafkaGroupIdPrefix : GoString)
    (c : InputKafka) :
    (∀ g, g ≠ [] → GetCosumeGroupId defaultKafkaGroupIdPrefix c g = g) ∧
    GetCosumeGroupId defaultKafkaGroupIdPrefix c [] =
      defaultKafkaGroupIdPrefix ++ c.DbName.filter isWordChar ∧
    (∀ ch ∈ c.DbName.filter isWordChar, ch.isAlphanum = true ∨ ch = '_') ∧
    (∀ ch, isWordChar ch = true ↔ (ch.isAlphanum = true ∨ ch = '_')) := by
  refine ⟨?_, ?_, ?_, isWordChar_iff⟩
  · intro g hg
    simp [GetCosumeGroupId, hg]
  · simp [GetCosumeGroupId, ReplaceAllString, replaceAllAux_nil]
  · intro ch hch
    exact (isWordChar_iff ch).mp (List.mem_filter.mp hch).2

/-- The example of the specification, and a configured group id. -/
theorem GetCosumeGroupId_derivation_witness :
    GetCosumeGroupId "bifrost_".toList { NewInputKafka with DbName := "my db-1".toList } [] =
      "bifrost_".toList ++ "mydb1".toList ∧
    GetCosumeGroupId "bifrost_".toList { NewInputKafka with DbName := "my db-1".toList }
      "group A".toList = "group A".toList :=
  ⟨(GetCosumeGroupId_derivation "bifrost_".toList
      { NewInputKafka with DbName := "my db-1".toList }).2.1.trans (by decide),
   (GetCosumeGroupId_derivation "bifrost_".toList
      { NewInputKafka with DbName := "my db-1".toList }).1 _ (by decide)⟩

/-! ## Event identifiers -/

theorem nextEventIDs_eq :
    ∀ (k : Nat) (c : InputKafka), c.eventID + k < 2 ^ 64 →
      nextEventIDs k c = (List.range k).map (fun i => c.eventID + 1 + i) := by
  intro k
  induction k with
  | zero => intro c _; rfl
  | succ k ih =>
    intro c h
    have hmod : (c.eventID + 1) % 2 ^ 64 = c.eventID + 1 := Nat.mod_eq_of_lt (by omega)
    have hnext : (getNextEventID c).1.eventID = c.eventID + 1 := hmod
    have hret : (getNextEventID c).2 = c.eventID + 1 := hmod
    rw [nextEventIDs, hret, ih _ (by rw [hnext]; omega), hnext, List.range_succ_eq_map]
    simp only [List.map_cons, List.map_map, Nat.add_zero, List.cons.injEq, true_and]
    apply List.map_congr_left
    intro i _
    simp only [Function.comp_apply]
    omega

/-- C7 as stated fails: from the counter value `2^64-2` two calls return `2^64-1`
and then `0`; the second call does not advance the value by one and the
returned values are not increasing. -/
theorem getNextEventID_wraps :
    nextEventIDs 2 (SetEventID NewInputKafka (2 ^ 64 - 2)).1 = [2 ^ 64 - 1, 0] ∧
    (getNextEventID (SetEventID NewInputKafka (2 ^ 64 - 1)).1).2 = 0 ∧
    ¬ List.Pairwise (fun a b => a < b)
        (nextEventIDs 2 (SetEventID NewInputKafka (2 ^ 64 - 2)).1) := by
  decide

/-- C7 (amended): `getNextEventID` adds one to the counter modulo `2^64` and
returns the new value; from a counter value `v` (also one set by
`SetEventID`), `k` calls with `v + k < 2^64` return `v+1, ..., v+k`, which is
strictly increasing. -/
theorem getNextEventID_increasing (c : InputKafka) (k : Nat)
    (h : c.eventID + k < 2 ^ 64) :
    (getNextEventID c).2 = (getNextEventID c).1.eventID ∧
    (getNextEventID c).1.eventID = (c.eventID + 1) % 2 ^ 64 ∧
    (∀ v, (SetEventID c v).1.eventID = v) ∧
    nextEventIDs k c = (List.range k).map (fun i => c.eventID + 1 + i) ∧
    List.Pairwise (fun a b => a < b) (nextEventIDs k c) := by
  refine ⟨rfl, rfl, fun _ => rfl, nextEventIDs_eq k c h, ?_⟩
  rw [nextEventIDs_eq k c h, List.pairwise_map]
  exact (List.pairwise_lt_range k).imp (fun hab => by omega)

/-- Three calls after `SetEventID(41)`. -/
theorem getNextEventID_increasing_witness :
    nextEventIDs 3 (SetEventID NewInputKafka 41).1 = [42, 43, 44] :=
  (getNextEventID_increasing (SetEventID NewInputKafka 41).1 3 (by decide)).2.2.2.1.trans
    (by decide)

end Kafka
